import Mathlib

/-!
A verification development for the `markdown-toc` generator
(`src/generator.py`, class `MarkdownTOCGenerator`).

The document is modelled as Python models it: a string split on `'\n'` into a
list of lines.  Strings are shallowly embedded as `List Char`.  Character
classes of Python's `re` module (`\w`, `\s`) and `str.strip`/`str.lower` are
modelled at the ASCII fragment, which covers every document and configuration
appearing in the claims.  Fallible operations (Python list indexing that can
raise `IndexError`) return `Option`.
-/

namespace MarkdownTOC

/-- A single line of the document: a list of characters containing no `'\n'`
(when produced by `splitNl`). -/
abbrev Line := List Char

/-- Python `str.isspace` / regex `\s` on ASCII: space, tab, newline, carriage
return, vertical tab, form feed. -/
def pyIsSpace (c : Char) : Bool :=
  c == ' ' || c == '\t' || c == '\n' || c == '\r' || c == '\x0b' || c == '\x0c'

/-- Python `str.strip()`: remove leading and trailing whitespace. -/
def pyStrip (l : Line) : Line :=
  ((l.dropWhile pyIsSpace).reverse.dropWhile pyIsSpace).reverse

/-- Python `not line.strip()`: the line is empty or whitespace-only. -/
def isBlank (l : Line) : Bool := pyStrip l == []

/-- The stale-TOC scan condition of `generate_toc` (line 102):
`lines[i].strip() == title for title in ['## Table of Contents', '## Contents']`. -/
def isTocTitleLine (l : Line) : Bool :=
  pyStrip l == "## Table of Contents".toList || pyStrip l == "## Contents".toList

/-- `re.match(r'^#+\s', line)`: one or more `'#'` followed by a whitespace
character. -/
def isHeaderPrefix (l : Line) : Bool :=
  match l with
  | '#' :: rest =>
    match rest.dropWhile (· == '#') with
    | c :: _ => pyIsSpace c
    | [] => false
  | _ => false

/-- `re.match(r'^(#+)\s(.+)$', line)` (line 132): returns the header level
(number of `'#'` marks) and the header text (everything after the single
whitespace character, which must be non-empty).  Faithful for lines without
`'\n'`, which is every line produced by `splitNl`. -/
def headerMatch (l : Line) : Option (Nat × Line) :=
  match l with
  | '#' :: rest =>
    match rest.dropWhile (· == '#') with
    | c :: text =>
      if pyIsSpace c && !text.isEmpty then
        some ((rest.takeWhile (· == '#')).length + 1, text)
      else none
    | [] => none
  | _ => none

/-- `line.startswith('# ') and not line.startswith('## ')` (lines 92-93). -/
def isH1Line (l : Line) : Bool :=
  List.isPrefixOf "# ".toList l && !(List.isPrefixOf "## ".toList l)

/-- ASCII model of Python regex `\w`: letter, digit, or underscore. -/
def pyIsWord (c : Char) : Bool := c.isAlphanum || c == '_'

/-- `re.sub(r'\s+', '-', link)`: replace every maximal whitespace run with a
single hyphen. -/
def hyphenate : Line → Line
  | [] => []
  | c :: rest =>
    if pyIsSpace c then '-' :: hyphenate (rest.dropWhile pyIsSpace)
    else c :: hyphenate rest
termination_by l => l.length
decreasing_by
  · simp only [List.length_cons]
    exact Nat.lt_succ_of_le ((List.dropWhile_sublist _).length_le)
  · simp

/-- `MarkdownTOCGenerator._convert_to_link`: lowercase, delete every character
outside `[\w\s-]`, then collapse whitespace runs to hyphens. -/
def convertToLink (text : Line) : Line :=
  hyphenate ((text.map Char.toLower).filter (fun c => pyIsWord c || pyIsSpace c || c == '-'))

/-- The slug rule exactly as the spec words it (for comparison with
`convertToLink`): lowercase, keep only letters, digits, whitespace, and
hyphens, then collapse whitespace runs to single hyphens.  Note the absence of
underscore in the kept set. -/
def specSlugClaimed (text : Line) : Line :=
  hyphenate ((text.map Char.toLower).filter
    (fun c => c.isAlpha || c.isDigit || pyIsSpace c || c == '-'))

/-- The configuration record (`default_config` keys of `__init__`). -/
structure Config where
  headerLevels : List Nat
  tocTitle : Line
  indentStyle : Line

/-- The defaults of `__init__`: H2 only, `'## Table of Contents'`, `'github'`. -/
def defaultConfig : Config :=
  ⟨[2], "## Table of Contents".toList, "github".toList⟩

/-- Python `sep.join` for a one-character separator. -/
def joinChar (sep : Char) : List Line → Line
  | [] => []
  | [l] => l
  | l :: ls => l ++ sep :: joinChar sep ls

/-- Python `'\n'.join`. -/
def joinNl : List Line → Line := joinChar '\n'

/-- Python `str.split('\n')`. -/
def splitNl : Line → List Line
  | [] => [[]]
  | c :: rest =>
    if c = '\n' then [] :: splitNl rest
    else
      match splitNl rest with
      | h :: t => (c :: h) :: t
      | [] => [c] :: []

/-- Decimal representation of a counter value, as Python's f-string `{number}`
renders an `int`. -/
def natChars (n : Nat) : Line := (Nat.repr n).toList

/-- A collected header: `(indent, number, text, link)` exactly as the tuples
appended at lines 140 and 143 of `generator.py`. -/
abbrev Header := Nat × Nat × Line × Line

/-- One line of the GitHub-style TOC (lines 56-60):
`f"{number}. [{text}](#{link})"` at indent 0, else `f"   - [{text}](#{link})"`. -/
def githubEntry : Header → Line
  | (indent, number, text, link) =>
    if indent == 0 then
      natChars number ++ ". [".toList ++ text ++ "](#".toList ++ link ++ ")".toList
    else
      "   - [".toList ++ text ++ "](#".toList ++ link ++ ")".toList

/-- `'    ' * indent` (line 76). -/
def indentSpaces (indent : Nat) : Line :=
  (List.replicate indent "    ".toList).flatten

/-- `'.'.join(str(n) for n in section_nums if n != 0)` (line 73). -/
def joinDots (ns : List Nat) : Line :=
  joinChar '.' ((ns.filter (· != 0)).map natChars)

/-- One line of the nested-style TOC (lines 72-77), given the updated
counters array `cs`. -/
def nestedEntry (cs : List Nat) (indent : Nat) (text link : Line) : Line :=
  indentSpaces indent ++ joinDots (cs.take (indent + 1)) ++ ". [".toList
    ++ text ++ "](#".toList ++ link ++ ")".toList

/-- `current_section[indent] += 1` followed by
`for i in range(indent + 1, 6): current_section[i] = 0` (lines 66-69).
Returns `none` when `indent` is out of bounds (Python `IndexError`). -/
def nestedStep (cs : List Nat) (indent : Nat) : Option (List Nat) :=
  match cs[indent]? with
  | none => none
  | some v =>
    let cs1 := cs.set indent (v + 1)
    some ((List.range 6).foldl (fun acc i => if indent + 1 ≤ i then acc.set i 0 else acc) cs1)

/-- The nested-numbering loop of `_generate_toc` (lines 63-77), accumulating
rendered lines. -/
def nestedFold : List Header → List Nat → List Line → Option (List Line)
  | [], _, acc => some acc
  | (indent, _, text, link) :: rest, cs, acc =>
    match nestedStep cs indent with
    | none => none
    | some cs' => nestedFold rest cs' (acc ++ [nestedEntry cs' indent text link])

/-- `MarkdownTOCGenerator._generate_toc`: the TOC title line followed by one
rendered line per header, joined with `'\n'`. -/
def tocJoin (cfg : Config) (headers : List Header) : Option Line :=
  if cfg.indentStyle == "github".toList then
    some (joinNl (cfg.tocTitle :: headers.map githubEntry))
  else
    match nestedFold headers (List.replicate 6 0) [] with
    | none => none
    | some ls => some (joinNl (cfg.tocTitle :: ls))

/-- The stop condition of the inner `while j < len(lines)` loop (line 106):
`re.match(r'^#+\s', lines[j]) or (j + 1 < len(lines) and lines[j].strip() == ''
and re.match(r'^#+\s', lines[j + 1]))`. -/
def isTocEnd (lines : List Line) (j : Nat) : Bool :=
  isHeaderPrefix (lines.getD j []) ||
    (decide (j + 1 < lines.length) && isBlank (lines.getD j [])
      && isHeaderPrefix (lines.getD (j + 1) []))

/-- The inner `while j < len(lines)` loop of the stale-TOC remover
(lines 104-108): the first index `j ≥ start` satisfying `isTocEnd`;
`lines.length` if none. -/
def findTocEnd (lines : List Line) (j : Nat) : Nat :=
  if j < lines.length then
    if isTocEnd lines j then j
    else findTocEnd lines (j + 1)
  else j
termination_by lines.length - j

theorem findTocEnd_ge (lines : List Line) (j : Nat) : j ≤ findTocEnd lines j := by
  induction j using findTocEnd.induct lines with
  | case1 j h hc => rw [findTocEnd, if_pos h, if_pos hc]
  | case2 j h hc ih =>
    rw [findTocEnd, if_pos h, if_neg hc]
    omega
  | case3 j h => rw [findTocEnd, if_neg h]

/-- The outer stale-TOC removal loop of `generate_toc` (lines 100-112):
scan from index `i`; on a match delete `lines[i:j]` and restart from the top. -/
def removeTocsAux (lines : List Line) (i : Nat) : List Line :=
  if h : i < lines.length then
    if isTocTitleLine (lines.getD i []) then
      removeTocsAux (lines.take i ++ lines.drop (findTocEnd lines (i + 1))) 0
    else removeTocsAux lines (i + 1)
  else lines
termination_by (lines.length, lines.length - i)
decreasing_by
  · apply Prod.Lex.left
    have hj := findTocEnd_ge lines (i + 1)
    simp only [List.length_append, List.length_take, List.length_drop]
    omega
  · apply Prod.Lex.right
    omega

/-- The whole stale-TOC removal stage, started at index 0. -/
def removeTocs (lines : List Line) : List Line := removeTocsAux lines 0

/-- `next((i for i in range(start, len(lines)) if p(lines[i])), default)`:
first index `≥ start` satisfying `p`. -/
def findIdxFrom (p : Line → Bool) (lines : List Line) (start : Nat) : Option Nat :=
  match (lines.drop start).findIdx? p with
  | some k => some (start + k)
  | none => none

/-- The backward walk over blank lines (lines 119-120):
`while description_end > 0 and not lines[description_end - 1].strip()`.
Returns `none` when Python would raise `IndexError` on `lines[description_end - 1]`. -/
def trimBack (lines : List Line) : Nat → Option Nat
  | 0 => some 0
  | d + 1 =>
    match lines[d]? with
    | none => none
    | some l => if isBlank l then trimBack lines d else some (d + 1)

/-- The header-collection loop of `generate_toc` (lines 127-144), with state
`currentH2` (`current_h2`, only its truthiness is ever used) and `counter`. -/
def collectAux (cfg : Config) (currentH2 : Option (Line × Line)) (counter : Nat) :
    List Line → List Header
  | [] => []
  | line :: rest =>
    match headerMatch line with
    | some (lvl, text) =>
      if lvl ∈ cfg.headerLevels ∧ pyStrip text ≠ "Table of Contents".toList
          ∧ pyStrip text ≠ "Contents".toList then
        if lvl = 2 then
          (0, counter, text, convertToLink text) ::
            collectAux cfg (some (text, convertToLink text)) (counter + 1) rest
        else if lvl = 3 ∧ currentH2.isSome then
          (1, counter, text, convertToLink text) ::
            collectAux cfg currentH2 (counter + 1) rest
        else collectAux cfg currentH2 counter rest
      else collectAux cfg currentH2 counter rest
    | none => collectAux cfg currentH2 counter rest

/-- Header collection over the scanned region, with initial state
`current_h2 = None`, `counter = 1`. -/
def collectHeaders (cfg : Config) (lines : List Line) : List Header :=
  collectAux cfg none 1 lines

/-- The blank-collapsing loop of `generate_toc` (lines 158-163):
`while i < len(result) - 1: pop result[i] if both lines blank, else i += 1`. -/
def collapseAux (res : List Line) (i : Nat) : List Line :=
  if i + 1 < res.length then
    if isBlank (res.getD i []) && isBlank (res.getD (i + 1) []) then
      collapseAux (res.eraseIdx i) i
    else collapseAux res (i + 1)
  else res
termination_by (res.length, res.length - i)
decreasing_by
  · apply Prod.Lex.left
    rw [List.length_eraseIdx]
    split <;> omega
  · apply Prod.Lex.right
    omega

/-- The final normalization pass, started at index 0. -/
def collapseBlanks (res : List Line) : List Line := collapseAux res 0

/-- `MarkdownTOCGenerator.generate_toc` on an already-split document.
`none` models an uncaught Python exception. -/
def generateTocLines (cfg : Config) (lines0 : List Line) : Option (List Line) :=
  let h1Index := (lines0.findIdx? isH1Line).getD 0
  let lines := removeTocs lines0
  let descriptionEnd0 := (findIdxFrom isHeaderPrefix lines (h1Index + 1)).getD (h1Index + 1)
  match trimBack lines descriptionEnd0 with
  | none => none
  | some de =>
    let contentStart := (findIdxFrom isHeaderPrefix lines (de + 1)).getD lines.length
    let headers := collectHeaders cfg (lines.drop de)
    match tocJoin cfg headers with
    | none => none
    | some tocStr =>
      some (collapseBlanks (lines.take de ++ [[]] ++ splitNl tocStr ++ [[]]
        ++ lines.drop contentStart))

/-- `MarkdownTOCGenerator.generate_toc`: split on `'\n'`, transform, re-join. -/
def generateToc (cfg : Config) (doc : Line) : Option Line :=
  (generateTocLines cfg (splitNl doc)).map joinNl

unseal removeTocsAux findTocEnd collapseAux hyphenate in
/-- Claim C1: running the generator a second time on its own output is NOT
always a no-op.  On `"# Title\nIntro\n## A\nstuff\n## B"` (no blank line
before the first section header) the first run discards the `## A` section
while still listing it in the TOC, and the second run therefore produces a
TOC listing only `B`: `generate_toc (generate_toc doc) ≠ generate_toc doc`. -/
theorem c1_idempotence_fails :
    (generateToc defaultConfig "# Title\nIntro\n## A\nstuff\n## B".toList).bind
        (generateToc defaultConfig)
      ≠ generateToc defaultConfig "# Title\nIntro\n## A\nstuff\n## B".toList := by
  decide

unseal removeTocsAux findTocEnd in
/-- Claim C2, counterexample: in the blank-line case the blank boundary line is
NOT deleted.  Removing the stale TOC from
`["## Contents", "x", "", "# H"]` keeps the blank line (`lines[:i] + lines[j:]`
retains `lines[j]`), yielding `["", "# H"]` and not `["# H"]` as the claim
predicts. -/
theorem c2_blank_line_kept_counterexample :
    removeTocs ["## Contents".toList, "x".toList, [], "# H".toList]
        = [[], "# H".toList]
      ∧ removeTocs ["## Contents".toList, "x".toList, [], "# H".toList]
        ≠ ["# H".toList] := by
  constructor <;> decide

unseal hyphenate in
/-- Claim C3, counterexample: the code keeps underscores (Python `\w` matches
`_`), while the claimed rule — keep only letters, digits, whitespace, and
hyphens — would delete them.  On header text `"a_b"` the code yields `"a_b"`,
the claimed rule yields `"ab"`. -/
theorem c3_underscore_counterexample :
    convertToLink "a_b".toList = "a_b".toList
      ∧ specSlugClaimed "a_b".toList = "ab".toList
      ∧ convertToLink "a_b".toList ≠ specSlugClaimed "a_b".toList := by
  refine ⟨by decide, by decide, by decide⟩

unseal removeTocsAux findTocEnd collapseAux hyphenate in
/-- Claim C4, counterexample: the ordinal of a depth-0 entry is not its rank
among depth-0 entries — the shared counter also advances on depth-1 entries.
With headers `## A`, `### A1`, `## B` (levels `[2, 3]`, flat style) the second
depth-0 entry `B` is rendered `3. [B](#b)`, not `2. [B](#b)` as the claim
predicts. -/
theorem c4_ordinal_counterexample :
    generateTocLines ⟨[2, 3], "## Table of Contents".toList, "github".toList⟩
        (splitNl "# T\nx\n\n## A\n\n### A1\n\n## B".toList)
      = some ["# T".toList, "x".toList, [], "## Table of Contents".toList,
          "1. [A](#a)".toList, "   - [A1](#a1)".toList, "3. [B](#b)".toList, [],
          "## A".toList, [], "### A1".toList, [], "## B".toList]
      ∧ "2. [B](#b)".toList ∉ ["# T".toList, "x".toList, [], "## Table of Contents".toList,
          "1. [A](#a)".toList, "   - [A1](#a1)".toList, "3. [B](#b)".toList, [],
          "## A".toList, [], "### A1".toList, [], "## B".toList] := by
  constructor <;> decide

unseal removeTocsAux findTocEnd collapseAux hyphenate in
/-- Claim C6, counterexample: the claim quantifies over every configuration,
but a `toc_title` containing a newline is emitted through
`toc_lines.split('\n')`, so the output can contain two lines equal to a
reserved TOC-title literal. -/
theorem c6_multiline_title_counterexample :
    generateTocLines ⟨[2], "## Contents\n## Contents".toList, "github".toList⟩
        (splitNl "".toList)
      = some [[], "## Contents".toList, "## Contents".toList, []]
      ∧ List.countP isTocTitleLine
          [[], "## Contents".toList, "## Contents".toList, []] = 2 := by
  constructor <;> decide

unseal removeTocsAux findTocEnd collapseAux hyphenate in
/-- Claim C9: `generate_toc` is not total.  On the document `"## Contents"`
the stale-TOC remover deletes every line, and the blank-trimming loop then
evaluates `lines[description_end - 1]` on an empty list — a Python
`IndexError`, modelled here as `none`. -/
theorem c9_crash_on_contents_only :
    generateToc defaultConfig "## Contents".toList = none := by
  decide

/-! ### Claim C3, amended: the slug rule with underscores kept -/

/-- The spec's slug rule amended for claim C3: the kept character set
additionally contains the underscore, matching Python `\w`. -/
def specSlugAmended (text : Line) : Line :=
  hyphenate ((text.map Char.toLower).filter
    (fun c => c.isAlpha || c.isDigit || c == '_' || pyIsSpace c || c == '-'))

unseal hyphenate in
/-- Claim C3, amended: for every header text the emitted slug equals the
result of lowercasing, deleting every character that is not a letter, digit,
underscore, whitespace, or hyphen, and replacing every maximal whitespace run
with a single hyphen; in particular `"API & Usage!"` yields `"api-usage"`. -/
theorem c3_slug_rule_amended :
    (∀ text, convertToLink text = specSlugAmended text)
    ∧ convertToLink "API & Usage!".toList = "api-usage".toList := by
  constructor
  · intro text
    have hp : ∀ c : Char, (pyIsWord c || pyIsSpace c || c == '-')
        = (c.isAlpha || c.isDigit || c == '_' || pyIsSpace c || c == '-') := by
      intro c
      simp [pyIsWord, Char.isAlphanum, Bool.or_assoc]
    unfold convertToLink specSlugAmended
    rw [List.filter_congr (fun c _ => hp c)]
  · decide

/-! ### Claims C10 and C7: which lines can contribute TOC entries -/

/-- `header_levels` with every entry other than 2 and 3 removed. -/
def restrictLevels (cfg : Config) : Config :=
  { cfg with headerLevels := cfg.headerLevels.filter (fun l => l == 2 || l == 3) }

theorem collectAux_restrict (cfg : Config) :
    ∀ (ls : List Line) cur c,
      collectAux (restrictLevels cfg) cur c ls = collectAux cfg cur c ls := by
  intro ls
  induction ls with
  | nil => intro cur c; rfl
  | cons line rest ih =>
    intro cur c
    cases hm : headerMatch line with
    | none => simp only [collectAux, hm]; exact ih cur c
    | some p =>
      obtain ⟨lvl, text⟩ := p
      simp only [collectAux, hm]
      have hmem : lvl ∈ (restrictLevels cfg).headerLevels
          ↔ lvl ∈ cfg.headerLevels ∧ (lvl = 2 ∨ lvl = 3) := by
        simp [restrictLevels, List.mem_filter]
      by_cases h23 : lvl = 2 ∨ lvl = 3
      · by_cases hcnd : lvl ∈ cfg.headerLevels ∧ pyStrip text ≠ "Table of Contents".toList
            ∧ pyStrip text ≠ "Contents".toList
        · rw [if_pos hcnd, if_pos ⟨hmem.mpr ⟨hcnd.1, h23⟩, hcnd.2⟩]
          by_cases hl2 : lvl = 2
          · rw [if_pos hl2, if_pos hl2, ih]
          · rw [if_neg hl2, if_neg hl2]
            by_cases h3c : lvl = 3 ∧ cur.isSome = true
            · rw [if_pos h3c, if_pos h3c, ih]
            · rw [if_neg h3c, if_neg h3c]
              exact ih cur c
        · have hcnd' : ¬(lvl ∈ (restrictLevels cfg).headerLevels
              ∧ pyStrip text ≠ "Table of Contents".toList
              ∧ pyStrip text ≠ "Contents".toList) := by
            intro hc
            exact hcnd ⟨(hmem.mp hc.1).1, hc.2⟩
          rw [if_neg hcnd, if_neg hcnd']
          exact ih cur c
      · have hl2 : lvl ≠ 2 := fun h => h23 (Or.inl h)
        have hl3 : ¬(lvl = 3 ∧ cur.isSome = true) := fun h => h23 (Or.inr h.1)
        have hcnd' : ¬(lvl ∈ (restrictLevels cfg).headerLevels
            ∧ pyStrip text ≠ "Table of Contents".toList
            ∧ pyStrip text ≠ "Contents".toList) := by
          intro hc
          exact h23 (hmem.mp hc.1).2
        rw [if_neg hcnd']
        by_cases hc : lvl ∈ cfg.headerLevels ∧ pyStrip text ≠ "Table of Contents".toList
            ∧ pyStrip text ≠ "Contents".toList
        · rw [if_pos hc, if_neg hl2, if_neg hl3]
          exact ih cur c
        · rw [if_neg hc]
          exact ih cur c

theorem collectAux_no23 (cfg : Config) (h2 : 2 ∉ cfg.headerLevels)
    (h3 : 3 ∉ cfg.headerLevels) :
    ∀ (ls : List Line) cur c, collectAux cfg cur c ls = [] := by
  intro ls
  induction ls with
  | nil => intro cur c; rfl
  | cons line rest ih =>
    intro cur c
    cases hm : headerMatch line with
    | none => simp only [collectAux, hm]; exact ih cur c
    | some p =>
      obtain ⟨lvl, text⟩ := p
      simp only [collectAux, hm]
      split
      · rename_i hcnd
        have hl2 : ¬lvl = 2 := fun h => h2 (h ▸ hcnd.1)
        have hl3 : ¬(lvl = 3 ∧ cur.isSome = true) := fun h => h3 (h.1 ▸ hcnd.1)
        rw [if_neg hl2, if_neg hl3]
        exact ih cur c
      · exact ih cur c

theorem tocJoin_nil (cfg : Config) : tocJoin cfg [] = some cfg.tocTitle := by
  unfold tocJoin
  split <;> rfl

/-- Claim C10: only marker depths 2 and 3 are ever collectable — filtering
`header_levels` down to `{2, 3}` never changes the collected headers — and a
configuration whose `header_levels` contains neither 2 nor 3 collects nothing,
so its rendered TOC is exactly the TOC title line. -/
theorem c10_only_levels_two_three :
    (∀ cfg lines, collectHeaders cfg lines = collectHeaders (restrictLevels cfg) lines)
    ∧ (∀ cfg lines, 2 ∉ cfg.headerLevels → 3 ∉ cfg.headerLevels →
        collectHeaders cfg lines = []
        ∧ tocJoin cfg (collectHeaders cfg lines) = some cfg.tocTitle) := by
  constructor
  · intro cfg lines
    exact (collectAux_restrict cfg lines none 1).symm
  · intro cfg lines h2 h3
    have hnil : collectHeaders cfg lines = [] := collectAux_no23 cfg h2 h3 lines none 1
    exact ⟨hnil, by rw [hnil]; exact tocJoin_nil cfg⟩

/-- Witness for C10 at `header_levels = [1, 4]` on a document containing a
level-1 and a level-4 header. -/
theorem c10_only_levels_two_three_witness :
    (2 ∉ ([1, 4] : List Nat) ∧ 3 ∉ ([1, 4] : List Nat))
    ∧ (collectHeaders ⟨[1, 4], "## Table of Contents".toList, "github".toList⟩
          ["# X".toList, "#### Y".toList] = []
        ∧ tocJoin ⟨[1, 4], "## Table of Contents".toList, "github".toList⟩
            (collectHeaders ⟨[1, 4], "## Table of Contents".toList, "github".toList⟩
              ["# X".toList, "#### Y".toList])
          = some "## Table of Contents".toList) :=
  ⟨⟨by decide, by decide⟩,
    c10_only_levels_two_three.2 ⟨[1, 4], "## Table of Contents".toList, "github".toList⟩
      ["# X".toList, "#### Y".toList] (by decide) (by decide)⟩

/-- A line on which the collector starts a new primary (depth-0) entry: a
level-2 header whose level is configured and whose text is not a reserved
TOC-title literal. -/
def collectsPrimary (cfg : Config) (l : Line) : Bool :=
  match headerMatch l with
  | some (lvl, text) =>
    decide (lvl ∈ cfg.headerLevels) && (lvl == 2)
      && !(pyStrip text == "Table of Contents".toList)
      && !(pyStrip text == "Contents".toList)
  | none => false

theorem collectAux_skip (cfg : Config) (line : Line)
    (hnp : collectsPrimary cfg line = false) :
    ∀ rest c, collectAux cfg none c (line :: rest) = collectAux cfg none c rest := by
  intro rest c
  cases hm : headerMatch line with
  | none => simp only [collectAux, hm]
  | some p =>
    obtain ⟨lvl, text⟩ := p
    simp only [collectAux, hm]
    unfold collectsPrimary at hnp
    rw [hm] at hnp
    dsimp only at hnp
    split
    · rename_i hcnd
      have hl2 : lvl ≠ 2 := by
        intro h
        subst h
        rw [decide_eq_true hcnd.1, beq_eq_false_iff_ne.mpr hcnd.2.1,
          beq_eq_false_iff_ne.mpr hcnd.2.2] at hnp
        simp at hnp
      rw [if_neg hl2, if_neg (fun h => by simpa using h.2)]
    · rfl

/-- Claim C7: a region containing no collectable primary (level-2) header
contributes nothing to the collection — in particular every level-3 header
appearing before the first level-2 header is silently dropped, and the
counter is not advanced for it. -/
theorem c7_secondary_before_primary_dropped :
    ∀ (cfg : Config) (pre post : List Line),
      (∀ l ∈ pre, collectsPrimary cfg l = false) →
      collectHeaders cfg (pre ++ post) = collectHeaders cfg post := by
  intro cfg pre
  induction pre with
  | nil => intro post _; rfl
  | cons line rest ih =>
    intro post hall
    have h1 : collectsPrimary cfg line = false := hall line (by simp)
    have h2 : ∀ l ∈ rest, collectsPrimary cfg l = false :=
      fun l hl => hall l (by simp [hl])
    calc collectHeaders cfg ((line :: rest) ++ post)
        = collectAux cfg none 1 (rest ++ post) := collectAux_skip cfg line h1 _ 1
      _ = collectHeaders cfg post := ih post h2

/-- Witness for C7: with `header_levels = [2, 3]`, the level-3 header
`### S` standing before the first level-2 header produces no entry. -/
theorem c7_secondary_before_primary_dropped_witness :
    (∀ l ∈ ["### S".toList], collectsPrimary
        ⟨[2, 3], "## Table of Contents".toList, "github".toList⟩ l = false)
    ∧ collectHeaders ⟨[2, 3], "## Table of Contents".toList, "github".toList⟩
        (["### S".toList] ++ ["## A".toList])
      = collectHeaders ⟨[2, 3], "## Table of Contents".toList, "github".toList⟩
        ["## A".toList] :=
  ⟨by decide,
    c7_secondary_before_primary_dropped
      ⟨[2, 3], "## Table of Contents".toList, "github".toList⟩
      ["### S".toList] ["## A".toList] (by decide)⟩

/-! ### Claim C4, amended: the flat style shares one counter across depths -/

theorem collectAux_numbers (cfg : Config) :
    ∀ (ls : List Line) cur c,
      (collectAux cfg cur c ls).map (fun h => h.2.1)
        = List.range' c (collectAux cfg cur c ls).length := by
  intro ls
  induction ls with
  | nil => intro cur c; rfl
  | cons line rest ih =>
    intro cur c
    cases hm : headerMatch line with
    | none => simp only [collectAux, hm]; exact ih cur c
    | some p =>
      obtain ⟨lvl, text⟩ := p
      simp only [collectAux, hm]
      split
      · split
        · simp only [List.map_cons, List.length_cons, List.range'_succ]
          exact congrArg _ (ih _ _)
        · split
          · simp only [List.map_cons, List.length_cons, List.range'_succ]
            exact congrArg _ (ih _ _)
          · exact ih cur c
      · exact ih cur c

/-- Claim C4, amended: with the flat (GitHub) style the rendered TOC is the
title line followed by `githubEntry` per collected header — depth-0 entries
show their number, depth-1 entries the fixed bullet — and the numbers of the
collected headers are their 1-based positions among ALL collected headers
(one shared counter, advanced by both depths). -/
theorem c4_flat_shared_counter_amended :
    ∀ (cfg : Config) (lines : List Line), cfg.indentStyle = "github".toList →
      tocJoin cfg (collectHeaders cfg lines)
        = some (joinNl (cfg.tocTitle :: (collectHeaders cfg lines).map githubEntry))
      ∧ (collectHeaders cfg lines).map (fun h => h.2.1)
        = List.range' 1 (collectHeaders cfg lines).length := by
  intro cfg lines hstyle
  constructor
  · unfold tocJoin
    rw [if_pos (by simp [hstyle])]
  · exact collectAux_numbers cfg lines none 1

/-- Witness for the amended C4 on `## A`, `### A1`, `## B` with
`header_levels = [2, 3]`. -/
theorem c4_flat_shared_counter_amended_witness :
    (⟨[2, 3], "## Table of Contents".toList, "github".toList⟩ : Config).indentStyle
        = "github".toList
    ∧ (tocJoin ⟨[2, 3], "## Table of Contents".toList, "github".toList⟩
          (collectHeaders ⟨[2, 3], "## Table of Contents".toList, "github".toList⟩
            ["## A".toList, "### A1".toList, "## B".toList])
        = some (joinNl ("## Table of Contents".toList ::
            (collectHeaders ⟨[2, 3], "## Table of Contents".toList, "github".toList⟩
              ["## A".toList, "### A1".toList, "## B".toList]).map githubEntry))
      ∧ (collectHeaders ⟨[2, 3], "## Table of Contents".toList, "github".toList⟩
            ["## A".toList, "### A1".toList, "## B".toList]).map (fun h => h.2.1)
        = List.range' 1 (collectHeaders ⟨[2, 3], "## Table of Contents".toList,
            "github".toList⟩ ["## A".toList, "### A1".toList, "## B".toList]).length) :=
  ⟨rfl, c4_flat_shared_counter_amended
    ⟨[2, 3], "## Table of Contents".toList, "github".toList⟩
    ["## A".toList, "### A1".toList, "## B".toList] rfl⟩

/-! ### Claim C5: nested hierarchical numbering -/

/-- The nested numbering as the spec describes it, tracking the count `a` of
depth-0 entries emitted so far and the count `b` of depth-1 entries since the
last depth-0 entry: a depth-0 entry is numbered `a + 1`, a depth-1 entry gets
the dotted path of the non-zero counters `a` and `b + 1` with one level of
indentation.  Entries of other depths are ignored (none are ever collected). -/
def nestedNums (a b : Nat) : List Header → List Line
  | [] => []
  | (0, _, t, l) :: rest =>
    (joinDots [a + 1] ++ ". [".toList ++ t ++ "](#".toList ++ l ++ ")".toList)
      :: nestedNums (a + 1) 0 rest
  | (1, _, t, l) :: rest =>
    ("    ".toList ++ joinDots [a, b + 1] ++ ". [".toList ++ t ++ "](#".toList
        ++ l ++ ")".toList)
      :: nestedNums a (b + 1) rest
  | _ :: rest => nestedNums a b rest

theorem nestedFold_eq_nestedNums :
    ∀ (hs : List Header) (a b : Nat) (acc : List Line),
      (∀ h ∈ hs, h.1 = 0 ∨ h.1 = 1) →
      nestedFold hs [a, b, 0, 0, 0, 0] acc = some (acc ++ nestedNums a b hs) := by
  intro hs
  induction hs with
  | nil => intro a b acc _; simp [nestedFold, nestedNums]
  | cons hd rest ih =>
    intro a b acc hall
    obtain ⟨indent, num, t, l⟩ := hd
    have h01 : indent = 0 ∨ indent = 1 := by simpa using hall (indent, num, t, l) (by simp)
    have hrest : ∀ h ∈ rest, h.1 = 0 ∨ h.1 = 1 := fun h hm => hall h (by simp [hm])
    rcases h01 with h | h <;> subst h
    · have hstep : nestedStep [a, b, 0, 0, 0, 0] 0 = some [a + 1, 0, 0, 0, 0, 0] := rfl
      simp only [nestedFold, hstep]
      rw [ih (a + 1) 0 _ hrest]
      simp [nestedNums, nestedEntry, indentSpaces, joinDots]
    · have hstep : nestedStep [a, b, 0, 0, 0, 0] 1 = some [a, b + 1, 0, 0, 0, 0] := rfl
      simp only [nestedFold, hstep]
      rw [ih a (b + 1) _ hrest]
      simp [nestedNums, nestedEntry, indentSpaces, joinDots]

/-- Claim C5: with the nested style the rendered TOC is the title followed by
the entries numbered by depth-indexed counters — each header increments the
counter at its own depth and resets the deeper ones, and is rendered as
`4·depth` spaces, the dotted path of non-zero counters up to its depth, and
`. [text](#link)`; a depth-0 header followed by two depth-1 headers is
numbered `1`, `1.1`, `1.2`. -/
theorem c5_nested_counters :
    (∀ (cfg : Config) (hs : List Header), cfg.indentStyle ≠ "github".toList →
        (∀ h ∈ hs, h.1 = 0 ∨ h.1 = 1) →
        tocJoin cfg hs = some (joinNl (cfg.tocTitle :: nestedNums 0 0 hs)))
    ∧ tocJoin ⟨[2, 3], "## Table of Contents".toList, "nested".toList⟩
        [(0, 1, "A".toList, "a".toList), (1, 2, "B".toList, "b".toList),
          (1, 3, "C".toList, "c".toList)]
      = some ("## Table of Contents\n1. [A](#a)\n    1.1. [B](#b)\n    1.2. [C](#c)".toList) := by
  constructor
  · intro cfg hs hstyle hall
    unfold tocJoin
    rw [if_neg (by simpa using hstyle)]
    rw [show (List.replicate 6 0 : List Nat) = [0, 0, 0, 0, 0, 0] from rfl,
      nestedFold_eq_nestedNums hs 0 0 [] hall]
    simp
  · decide

/-- Witness for C5 at a one-entry header list and a nested-style
configuration. -/
theorem c5_nested_counters_witness :
    ((⟨[2], "T".toList, "nested".toList⟩ : Config).indentStyle ≠ "github".toList
      ∧ (∀ h ∈ [((0 : Nat), (1 : Nat), "A".toList, "a".toList)], h.1 = 0 ∨ h.1 = 1))
    ∧ tocJoin ⟨[2], "T".toList, "nested".toList⟩ [(0, 1, "A".toList, "a".toList)]
      = some (joinNl ("T".toList :: nestedNums 0 0 [(0, 1, "A".toList, "a".toList)])) :=
  ⟨⟨by decide, by decide⟩,
    c5_nested_counters.1 ⟨[2], "T".toList, "nested".toList⟩
      [(0, 1, "A".toList, "a".toList)] (by decide) (by decide)⟩

/-! ### Claim C2, amended: the deletion range of the stale-TOC remover -/

theorem findTocEnd_min (lines : List Line) (j : Nat) :
    (∀ k, j ≤ k → k < findTocEnd lines j → isTocEnd lines k = false)
    ∧ (findTocEnd lines j < lines.length →
        isTocEnd lines (findTocEnd lines j) = true) := by
  induction j using findTocEnd.induct lines with
  | case1 j h hc =>
    rw [findTocEnd, if_pos h, if_pos hc]
    exact ⟨fun k hk1 hk2 => absurd (Nat.lt_of_le_of_lt hk1 hk2) (Nat.lt_irrefl j),
      fun _ => hc⟩
  | case2 j h hc ih =>
    rw [findTocEnd, if_pos h, if_neg hc]
    refine ⟨fun k hk1 hk2 => ?_, ih.2⟩
    rcases Nat.eq_or_lt_of_le hk1 with rfl | hlt
    · exact Bool.eq_false_iff.mpr hc
    · exact ih.1 k hlt hk2
  | case3 j h =>
    rw [findTocEnd, if_neg h]
    exact ⟨fun k hk1 hk2 => absurd (Nat.lt_of_le_of_lt hk1 hk2) (Nat.lt_irrefl j),
      fun hlt => absurd hlt h⟩

theorem removeTocsAux_skip (lines : List Line) :
    ∀ (i : Nat), (∀ k, k < i → isTocTitleLine (lines.getD k []) = false) →
      removeTocsAux lines 0 = removeTocsAux lines i := by
  intro i
  induction i with
  | zero => intro _; rfl
  | succ n ih =>
    intro hall
    rw [ih (fun k hk => hall k (Nat.lt_succ_of_lt hk))]
    by_cases hn : n < lines.length
    · have hniso : isTocTitleLine (lines.getD n []) = false := hall n (Nat.lt_succ_self n)
      rw [removeTocsAux, dif_pos hn, if_neg (by rw [hniso]; exact Bool.false_ne_true)]
    · rw [removeTocsAux, dif_neg hn, removeTocsAux,
        dif_neg (fun hc => hn (Nat.lt_of_succ_lt hc))]

/-- Claim C2, amended: when line `i` is the first line whose trimmed text is a
recognized TOC heading literal, the removal stage deletes exactly the range
`[i, j)` where `j` is the least index `> i` whose line is a header line
(`^#+\s`) or a blank line immediately followed by a header line; the boundary
line at `j` itself — the blank line, in the blank-line case — is retained. -/
theorem c2_removal_range_amended :
    ∀ (lines : List Line) (i : Nat),
      i < lines.length →
      isTocTitleLine (lines.getD i []) = true →
      (∀ k, k < i → isTocTitleLine (lines.getD k []) = false) →
      (∀ k, i + 1 ≤ k → k < findTocEnd lines (i + 1) → isTocEnd lines k = false)
      ∧ (findTocEnd lines (i + 1) < lines.length →
          isTocEnd lines (findTocEnd lines (i + 1)) = true)
      ∧ removeTocs lines
          = removeTocs (lines.take i ++ lines.drop (findTocEnd lines (i + 1))) := by
  intro lines i hi hmatch hfirst
  refine ⟨(findTocEnd_min lines (i + 1)).1, (findTocEnd_min lines (i + 1)).2, ?_⟩
  show removeTocsAux lines 0 = _
  rw [removeTocsAux_skip lines i hfirst, removeTocsAux, dif_pos hi, if_pos hmatch]
  rfl

unseal removeTocsAux findTocEnd in
/-- Witness for the amended C2: `"## Contents"` at index 1 of a five-line
document, with the blank line at index 3 as the boundary. -/
theorem c2_removal_range_amended_witness :
    (1 < (["a".toList, "## Contents".toList, "x".toList, [], "# H".toList] : List Line).length
      ∧ isTocTitleLine (["a".toList, "## Contents".toList, "x".toList, [],
          "# H".toList].getD 1 []) = true)
    ∧ ((∀ k, 1 + 1 ≤ k →
          k < findTocEnd ["a".toList, "## Contents".toList, "x".toList, [], "# H".toList] (1 + 1) →
          isTocEnd ["a".toList, "## Contents".toList, "x".toList, [], "# H".toList] k = false)
      ∧ (findTocEnd ["a".toList, "## Contents".toList, "x".toList, [], "# H".toList] (1 + 1)
            < (["a".toList, "## Contents".toList, "x".toList, [], "# H".toList] : List Line).length →
          isTocEnd ["a".toList, "## Contents".toList, "x".toList, [], "# H".toList]
            (findTocEnd ["a".toList, "## Contents".toList, "x".toList, [], "# H".toList] (1 + 1)) = true)
      ∧ removeTocs ["a".toList, "## Contents".toList, "x".toList, [], "# H".toList]
          = removeTocs ((["a".toList, "## Contents".toList, "x".toList, [],
              "# H".toList] : List Line).take 1
            ++ (["a".toList, "## Contents".toList, "x".toList, [], "# H".toList] : List Line).drop
              (findTocEnd ["a".toList, "## Contents".toList, "x".toList, [], "# H".toList] (1 + 1)))) :=
  ⟨⟨by decide, by decide⟩,
    c2_removal_range_amended ["a".toList, "## Contents".toList, "x".toList, [], "# H".toList] 1
      (by decide) (by decide)
      (by
        intro k hk
        have hk0 : k = 0 := by omega
        subst hk0
        decide)⟩

/-! ### Claim C8: no consecutive blank lines in the output -/

/-- Two adjacent blank lines occur somewhere in the list. -/
def hasConsecBlanks : List Line → Bool
  | a :: b :: rest => (isBlank a && isBlank b) || hasConsecBlanks (b :: rest)
  | _ => false

theorem hasConsecBlanks_eq_false_of_pairs :
    ∀ (l : List Line),
      (∀ k, k + 1 < l.length →
        ¬(isBlank (l.getD k []) = true ∧ isBlank (l.getD (k + 1) []) = true)) →
      hasConsecBlanks l = false := by
  intro l
  induction l with
  | nil => intro _; rfl
  | cons a rest ih =>
    cases rest with
    | nil => intro _; rfl
    | cons b rest2 =>
      intro hp
      have h0 := hp 0 (by simp)
      have h1 : (isBlank a && isBlank b) = false := by
        cases ha : isBlank a <;> cases hb : isBlank b <;> simp_all
      rw [hasConsecBlanks, h1, Bool.false_or]
      refine ih fun k hk => ?_
      have := hp (k + 1) (by simpa using Nat.succ_lt_succ hk)
      simpa using this

theorem collapseAux_pairs :
    ∀ (res : List Line) (i : Nat),
      (∀ k, k + 1 < res.length → k < i →
        ¬(isBlank (res.getD k []) = true ∧ isBlank (res.getD (k + 1) []) = true)) →
      ∀ k, k + 1 < (collapseAux res i).length →
        ¬(isBlank ((collapseAux res i).getD k []) = true
          ∧ isBlank ((collapseAux res i).getD (k + 1) []) = true) := by
  intro res i
  induction res, i using collapseAux.induct with
  | case1 res i hlen hbl ih =>
    intro hinv
    rw [collapseAux, if_pos hlen, if_pos hbl]
    apply ih
    intro k hk1 hk2
    have hlen' : (res.eraseIdx i).length = res.length - 1 := by
      rw [List.length_eraseIdx]
      exact if_pos (by omega)
    have hget : ∀ m, m < i → (res.eraseIdx i).getD m [] = res.getD m [] := by
      intro m hm
      rw [List.getD_eq_getElem?_getD, List.getD_eq_getElem?_getD,
        List.getElem?_eraseIdx, if_pos hm]
    rcases Nat.lt_or_ge (k + 1) i with hki | hki
    · rw [hget k hk2, hget (k + 1) hki]
      exact hinv k (by omega) (by omega)
    · have hk1i : k + 1 = i := by omega
      have hbl2 := hbl
      rw [Bool.and_eq_true] at hbl2
      have hnb : ¬(isBlank (res.getD k []) = true) := by
        intro hbk
        refine hinv k (by omega) (by omega) ⟨hbk, ?_⟩
        rw [hk1i]
        exact hbl2.1
      rw [hget k hk2]
      intro hc
      exact hnb hc.1
  | case2 res i hlen hbl ih =>
    intro hinv
    rw [collapseAux, if_pos hlen, if_neg hbl]
    apply ih
    intro k hk1 hk2
    rcases Nat.lt_or_ge k i with hki | hki
    · exact hinv k hk1 hki
    · have : k = i := by omega
      subst this
      intro hc
      exact hbl (by rw [hc.1, hc.2]; rfl)
  | case3 res i hlen =>
    intro hinv
    rw [collapseAux, if_neg hlen]
    intro k hk
    exact hinv k hk (by omega)

theorem collapseBlanks_clean (res : List Line) :
    hasConsecBlanks (collapseBlanks res) = false :=
  hasConsecBlanks_eq_false_of_pairs _
    (collapseAux_pairs res 0 (fun k _ hk => absurd hk (Nat.not_lt_zero k)))

/-- Claim C8: whenever `generate_toc` succeeds, its output — as the list of
lines it joins and returns — contains no two adjacent blank
(empty or whitespace-only) lines: the final normalization pass removes every
adjacent blank pair. -/
theorem c8_no_consecutive_blanks :
    ∀ (cfg : Config) (lines out : List Line),
      generateTocLines cfg lines = some out → hasConsecBlanks out = false := by
  intro cfg lines out h
  unfold generateTocLines at h
  dsimp only at h
  split at h
  · exact absurd h (by simp)
  · split at h
    · exact absurd h (by simp)
    · rw [Option.some_inj] at h
      rw [← h]
      exact collapseBlanks_clean _

unseal removeTocsAux findTocEnd collapseAux hyphenate in
/-- Witness for C8 on a document with a run of three blank lines. -/
theorem c8_no_consecutive_blanks_witness :
    generateTocLines defaultConfig (splitNl "# T\n\n\n\nx\n\n\n## A".toList)
      = some ["# T".toList, [], "x".toList, [], "## Table of Contents".toList,
          "1. [A](#a)".toList, [], "## A".toList]
    ∧ hasConsecBlanks ["# T".toList, [], "x".toList, [], "## Table of Contents".toList,
        "1. [A](#a)".toList, [], "## A".toList] = false :=
  ⟨by decide,
    c8_no_consecutive_blanks defaultConfig (splitNl "# T\n\n\n\nx\n\n\n## A".toList)
      ["# T".toList, [], "x".toList, [], "## Table of Contents".toList,
        "1. [A](#a)".toList, [], "## A".toList] (by decide)⟩

/-! ### Claim C6, amended: at most one TOC-title line in the output -/

theorem take_append_drop_sublist (lines : List Line) (i j : Nat) (h : i ≤ j) :
    (lines.take i ++ lines.drop j).Sublist lines := by
  have h1 : lines.drop j = List.drop (j - i) (lines.drop i) := by
    rw [List.drop_drop]
    congr 1
    omega
  have h2 : (lines.drop j).Sublist (lines.drop i) := by
    rw [h1]
    exact List.drop_sublist _ _
  calc (lines.take i ++ lines.drop j).Sublist (lines.take i ++ lines.drop i) :=
        List.Sublist.append_left h2 _
    _ = lines := List.take_append_drop i lines

theorem removeTocsAux_sublist :
    ∀ (lines : List Line) (i : Nat), (removeTocsAux lines i).Sublist lines := by
  intro lines i
  induction lines, i using removeTocsAux.induct with
  | case1 lines i h hc ih =>
    rw [removeTocsAux, dif_pos h, if_pos hc]
    exact ih.trans (take_append_drop_sublist lines i _
      (Nat.le_trans (Nat.le_succ i) (findTocEnd_ge lines (i + 1))))
  | case2 lines i h hc ih =>
    rw [removeTocsAux, dif_pos h, if_neg hc]
    exact ih
  | case3 lines i h =>
    rw [removeTocsAux, dif_neg h]

theorem removeTocsAux_no_title :
    ∀ (lines : List Line) (i : Nat),
      (∀ k, k < i → isTocTitleLine (lines.getD k []) = false) →
      ∀ l ∈ removeTocsAux lines i, isTocTitleLine l = false := by
  intro lines i
  induction lines, i using removeTocsAux.induct with
  | case1 lines i h hc ih =>
    intro _
    rw [removeTocsAux, dif_pos h, if_pos hc]
    exact ih fun k hk => absurd hk (Nat.not_lt_zero k)
  | case2 lines i h hc ih =>
    intro hinv
    rw [removeTocsAux, dif_pos h, if_neg hc]
    refine ih fun k hk => ?_
    rcases Nat.lt_or_ge k i with hki | hki
    · exact hinv k hki
    · have : k = i := by omega
      subst this
      exact Bool.not_eq_true _ ▸ hc
  | case3 lines i h =>
    intro hinv l hl
    rw [removeTocsAux, dif_neg h] at hl
    obtain ⟨k, hk, hkl⟩ := List.mem_iff_getElem.mp hl
    have : lines.getD k [] = l := by rw [List.getD_eq_getElem lines [] hk, hkl]
    rw [← this]
    exact hinv k (by omega)

theorem removeTocs_no_title (lines : List Line) :
    ∀ l ∈ removeTocs lines, isTocTitleLine l = false :=
  removeTocsAux_no_title lines 0 (fun k hk => absurd hk (Nat.not_lt_zero k))

theorem digitChar_props (m : Nat) (hm : m < 10) :
    pyIsSpace (Nat.digitChar m) = false ∧ Nat.digitChar m ≠ '#' := by
  interval_cases m <;> exact ⟨rfl, by decide⟩

theorem toDigitsCore_shape :
    ∀ (fuel n : Nat) (ds : List Char),
      ∃ pre : List Char, Nat.toDigitsCore 10 fuel n ds = pre ++ ds
        ∧ (∀ c ∈ pre, pyIsSpace c = false ∧ c ≠ '#')
        ∧ (fuel ≠ 0 → pre ≠ []) := by
  intro fuel
  induction fuel with
  | zero =>
    intro n ds
    exact ⟨[], rfl, by simp, fun h => absurd rfl h⟩
  | succ f ihf =>
    intro n ds
    rw [Nat.toDigitsCore]
    split
    · exact ⟨[Nat.digitChar (n % 10)], rfl,
        by simpa using digitChar_props (n % 10) (Nat.mod_lt n (by omega)),
        fun _ => by simp⟩
    · obtain ⟨pre, heq, hchars, _⟩ := ihf (n / 10) (Nat.digitChar (n % 10) :: ds)
      refine ⟨pre ++ [Nat.digitChar (n % 10)], ?_, ?_, fun _ => by simp⟩
      · rw [heq]
        simp
      · intro c hc
        rcases List.mem_append.mp hc with h | h
        · exact hchars c h
        · have : c = Nat.digitChar (n % 10) := by simpa using h
          rw [this]
          exact digitChar_props (n % 10) (Nat.mod_lt n (by omega))

theorem natChars_shape (n : Nat) :
    ∃ c cs, natChars n = c :: cs ∧ pyIsSpace c = false ∧ c ≠ '#'
      ∧ ∀ d ∈ natChars n, pyIsSpace d = false ∧ d ≠ '#' := by
  obtain ⟨pre, heq, hchars, hne⟩ := toDigitsCore_shape (n + 1) n []
  have hrepr : natChars n = pre := by
    show (Nat.repr n).toList = pre
    rw [Nat.repr, Nat.toDigits, heq, List.append_nil]
    rfl
  cases hpre : pre with
  | nil => exact absurd hpre (hne (Nat.succ_ne_zero n))
  | cons c cs =>
    rw [hpre] at hrepr
    refine ⟨c, cs, hrepr, (hchars c (by rw [hpre]; simp)).1,
      (hchars c (by rw [hpre]; simp)).2, ?_⟩
    intro d hd
    rw [hrepr] at hd
    exact hchars d (by rw [hpre]; exact hd)

theorem pyStrip_prefix (l : Line) : (pyStrip l).IsPrefix (l.dropWhile pyIsSpace) := by
  unfold pyStrip
  have h : ((l.dropWhile pyIsSpace).reverse.dropWhile pyIsSpace).IsSuffix
      (l.dropWhile pyIsSpace).reverse := List.dropWhile_suffix _
  rw [show l.dropWhile pyIsSpace = ((l.dropWhile pyIsSpace).reverse).reverse from
    (List.reverse_reverse _).symm]
  exact List.reverse_prefix.mpr (by simpa using h)

theorem isTocTitleLine_false_of_head (l : Line) (c : Char)
    (hc : (l.dropWhile pyIsSpace).head? = some c) (hne : c ≠ '#') :
    isTocTitleLine l = false := by
  have hpre := pyStrip_prefix l
  unfold isTocTitleLine
  rw [Bool.or_eq_false_iff]
  constructor <;>
  · rw [beq_eq_false_iff_ne]
    intro heq
    obtain ⟨s, hs⟩ := hpre
    rw [heq] at hs
    apply hne
    have h2 : (l.dropWhile pyIsSpace).head? = some '#' := by
      rw [← hs]
      rfl
    exact Option.some_inj.mp (hc.symm.trans h2)

theorem splitNl_noNl : ∀ (doc : Line), ∀ l ∈ splitNl doc, '\n' ∉ l := by
  intro doc
  induction doc with
  | nil =>
    intro l hl
    rw [show splitNl [] = [[]] from rfl] at hl
    simp at hl
    simp [hl]
  | cons c rest ih =>
    intro l hl
    rw [splitNl] at hl
    by_cases hc : c = '\n'
    · rw [if_pos hc] at hl
      rcases List.mem_cons.mp hl with h | h
      · simp [h]
      · exact ih l h
    · rw [if_neg hc] at hl
      cases hsp : splitNl rest with
      | nil =>
        rw [hsp] at hl
        simp at hl
        subst hl
        simpa using Ne.symm hc
      | cons h0 t0 =>
        rw [hsp] at hl
        rcases List.mem_cons.mp hl with h | h
        · subst h
          intro hmem
          rcases List.mem_cons.mp hmem with h | h
          · exact hc h.symm
          · exact ih h0 (by rw [hsp]; simp) h
        · exact ih l (by rw [hsp]; simp [h])

theorem splitNl_of_noNl : ∀ (x : Line), '\n' ∉ x → splitNl x = [x] := by
  intro x
  induction x with
  | nil => intro _; rfl
  | cons c rest ih =>
    intro hn
    have hc : ¬c = '\n' := fun h => hn (by simp [h])
    rw [splitNl, if_neg hc, ih (fun h => hn (by simp [h]))]

theorem splitNl_append_newline :
    ∀ (x rest : Line), '\n' ∉ x → splitNl (x ++ '\n' :: rest) = x :: splitNl rest := by
  intro x
  induction x with
  | nil =>
    intro rest _
    show splitNl ('\n' :: rest) = [] :: splitNl rest
    rw [splitNl, if_pos rfl]
  | cons c x0 ih =>
    intro rest hn
    have hc : ¬c = '\n' := fun h => hn (by simp [h])
    show splitNl (c :: (x0 ++ '\n' :: rest)) = (c :: x0) :: splitNl rest
    rw [splitNl, if_neg hc, ih rest (fun h => hn (by simp [h]))]

theorem splitNl_joinNl :
    ∀ (ls : List Line), ls ≠ [] → (∀ l ∈ ls, '\n' ∉ l) →
      splitNl (joinNl ls) = ls := by
  intro ls
  induction ls with
  | nil => intro h _; exact absurd rfl h
  | cons x t ih =>
    intro _ hall
    cases t with
    | nil => exact splitNl_of_noNl x (hall x (by simp))
    | cons y t2 =>
      show splitNl (joinChar '\n' (x :: y :: t2)) = x :: y :: t2
      rw [show joinChar '\n' (x :: y :: t2) = x ++ '\n' :: joinChar '\n' (y :: t2) from rfl,
        splitNl_append_newline x _ (hall x (by simp))]
      have hne : y :: t2 ≠ [] := by simp
      have hsub : ∀ l ∈ y :: t2, '\n' ∉ l := fun l hl => hall l (List.mem_cons_of_mem x hl)
      rw [show joinChar '\n' (y :: t2) = joinNl (y :: t2) from rfl, ih hne hsub]

theorem hyphenate_no_ws : ∀ (l : Line), ∀ c ∈ hyphenate l, pyIsSpace c = false := by
  intro l
  induction l using hyphenate.induct with
  | case1 => intro c hc; simp [hyphenate] at hc
  | case2 c0 rest hws ih =>
    intro c hc
    rw [hyphenate, if_pos hws] at hc
    rcases List.mem_cons.mp hc with h | h
    · rw [h]; rfl
    · exact ih c h
  | case3 c0 rest hws ih =>
    intro c hc
    rw [hyphenate, if_neg hws] at hc
    rcases List.mem_cons.mp hc with h | h
    · rw [h]; exact Bool.not_eq_true _ ▸ hws
    · exact ih c h

theorem convertToLink_noNl (t : Line) : '\n' ∉ convertToLink t := by
  intro h
  have := hyphenate_no_ws _ '\n' h
  simp [pyIsSpace] at this

theorem headerMatch_text_mem (l : Line) (lvl : Nat) (t : Line)
    (h : headerMatch l = some (lvl, t)) : ∀ c ∈ t, c ∈ l := by
  unfold headerMatch at h
  split at h
  · rename_i rest
    split at h
    · rename_i ch tl hdrop
      split at h
      · rw [Option.some_inj] at h
        have ht : tl = t := congrArg Prod.snd h
        intro c hc
        rw [← ht] at hc
        have h1 : c ∈ ch :: tl := List.mem_cons_of_mem ch hc
        rw [← hdrop] at h1
        have h2 : c ∈ rest := (List.dropWhile_sublist _).mem h1
        exact List.mem_cons_of_mem '#' h2
      · exact absurd h (by simp)
    · exact absurd h (by simp)
  · exact absurd h (by simp)

theorem noNl_append {A B : Line} (ha : '\n' ∉ A) (hb : '\n' ∉ B) : '\n' ∉ A ++ B := by
  intro h
  rcases List.mem_append.mp h with h | h
  · exact ha h
  · exact hb h

theorem dropWhile_append_all {p : Char → Bool} :
    ∀ (A X : List Char), (∀ c ∈ A, p c = true) →
      List.dropWhile p (A ++ X) = List.dropWhile p X := by
  intro A
  induction A with
  | nil => intro X _; rfl
  | cons a A0 ih =>
    intro X h
    rw [List.cons_append, List.dropWhile_cons, if_pos (h a (by simp))]
    exact ih X (fun c hc => h c (by simp [hc]))

theorem indentSpaces_spaces (n : Nat) : ∀ c ∈ indentSpaces n, c = ' ' := by
  intro c hc
  unfold indentSpaces at hc
  rw [List.mem_flatten] at hc
  obtain ⟨l, hl, hcl⟩ := hc
  rw [List.mem_replicate] at hl
  rw [hl.2] at hcl
  simpa using hcl

theorem natChars_noNl (n : Nat) : '\n' ∉ natChars n := by
  intro h
  obtain ⟨_, _, _, _, _, hall⟩ := natChars_shape n
  exact absurd (hall '\n' h).1 (by decide)

theorem joinChar_mem (sep : Char) :
    ∀ (L : List Line) (c : Char), c ∈ joinChar sep L → c = sep ∨ ∃ l ∈ L, c ∈ l := by
  intro L
  induction L with
  | nil => intro c hc; simp [joinChar] at hc
  | cons x xs ih =>
    intro c hc
    cases xs with
    | nil => exact Or.inr ⟨x, by simp, by simpa [joinChar] using hc⟩
    | cons y ys =>
      rw [show joinChar sep (x :: y :: ys) = x ++ sep :: joinChar sep (y :: ys) from rfl] at hc
      rcases List.mem_append.mp hc with h | h
      · exact Or.inr ⟨x, by simp, h⟩
      · rcases List.mem_cons.mp h with h | h
        · exact Or.inl h
        · rcases ih c h with h | ⟨l, hl, hcl⟩
          · exact Or.inl h
          · exact Or.inr ⟨l, List.mem_cons_of_mem x hl, hcl⟩

theorem joinDots_noNl (ns : List Nat) : '\n' ∉ joinDots ns := by
  intro h
  rcases joinChar_mem '.' _ '\n' h with h | ⟨l, hl, hcl⟩
  · exact absurd h (by decide)
  · obtain ⟨m, _, hm⟩ := List.mem_map.mp hl
    rw [← hm] at hcl
    exact natChars_noNl m hcl

theorem joinDots_shape (ns : List Nat) :
    joinDots ns = [] ∨ ∃ d ds, joinDots ns = d :: ds ∧ pyIsSpace d = false ∧ d ≠ '#' := by
  unfold joinDots
  cases hL : (ns.filter (· != 0)).map natChars with
  | nil => exact Or.inl rfl
  | cons y ys =>
    have hy : ∃ m, y = natChars m := by
      cases hf : ns.filter (· != 0) with
      | nil => rw [hf] at hL; simp at hL
      | cons m ms =>
        rw [hf] at hL
        simp only [List.map_cons, List.cons.injEq] at hL
        exact ⟨m, hL.1.symm⟩
    obtain ⟨m, hym⟩ := hy
    obtain ⟨c, cs, heq, hws, hne, _⟩ := natChars_shape m
    right
    cases ys with
    | nil =>
      refine ⟨c, cs, ?_, hws, hne⟩
      rw [show joinChar '.' [y] = y from rfl, hym, heq]
    | cons z zs =>
      refine ⟨c, cs ++ '.' :: joinChar '.' (z :: zs), ?_, hws, hne⟩
      rw [show joinChar '.' (y :: z :: zs) = y ++ '.' :: joinChar '.' (z :: zs) from rfl,
        hym, heq]
      rfl

theorem githubEntry_good (ind num : Nat) (t lk : Line)
    (ht : '\n' ∉ t) (hlk : '\n' ∉ lk) :
    isTocTitleLine (githubEntry (ind, num, t, lk)) = false
      ∧ '\n' ∉ githubEntry (ind, num, t, lk) := by
  unfold githubEntry
  dsimp only
  obtain ⟨c, cs, heq, hws, hne, hall⟩ := natChars_shape num
  have hnn : '\n' ∉ natChars num := natChars_noNl num
  by_cases hz : (ind == 0) = true
  · rw [if_pos hz]
    constructor
    · apply isTocTitleLine_false_of_head _ c _ hne
      rw [heq]
      simp [List.cons_append, List.dropWhile_cons, hws]
    · exact noNl_append (noNl_append (noNl_append (noNl_append
        (noNl_append hnn (by decide)) ht) (by decide)) hlk) (by decide)
  · rw [if_neg hz]
    constructor
    · apply isTocTitleLine_false_of_head _ '-' _ (by decide)
      simp [List.cons_append, List.dropWhile_cons,
        show pyIsSpace ' ' = true from rfl, show pyIsSpace '-' = false from rfl]
    · exact noNl_append (noNl_append (noNl_append (noNl_append
        (by decide : '\n' ∉ "   - [".toList) ht) (by decide)) hlk) (by decide)

theorem nestedEntry_good (cs2 : List Nat) (ind : Nat) (t lk : Line)
    (ht : '\n' ∉ t) (hlk : '\n' ∉ lk) :
    isTocTitleLine (nestedEntry cs2 ind t lk) = false
      ∧ '\n' ∉ nestedEntry cs2 ind t lk := by
  unfold nestedEntry
  have hind : ∀ c ∈ indentSpaces ind, pyIsSpace c = true := by
    intro c hc
    rw [indentSpaces_spaces ind c hc]
    rfl
  have hindnl : '\n' ∉ indentSpaces ind := by
    intro h
    have := indentSpaces_spaces ind '\n' h
    simp at this
  constructor
  · have hrep : indentSpaces ind ++ joinDots (cs2.take (ind + 1)) ++ ". [".toList ++ t
        ++ "](#".toList ++ lk ++ ")".toList
        = indentSpaces ind ++ (joinDots (cs2.take (ind + 1)) ++ (". [".toList ++ (t
          ++ ("](#".toList ++ (lk ++ ")".toList))))) := by
      simp [List.append_assoc]
    rw [hrep]
    rcases joinDots_shape (cs2.take (ind + 1)) with hj | ⟨d, ds, hj, hdws, hdne⟩
    · apply isTocTitleLine_false_of_head _ '.' _ (by decide)
      rw [dropWhile_append_all _ _ hind, hj]
      simp [List.cons_append, List.dropWhile_cons,
        show pyIsSpace '.' = false from rfl]
    · apply isTocTitleLine_false_of_head _ d _ hdne
      rw [dropWhile_append_all _ _ hind, hj]
      simp [List.cons_append, List.dropWhile_cons, hdws]
  · exact noNl_append (noNl_append (noNl_append (noNl_append (noNl_append
      (noNl_append hindnl (joinDots_noNl _)) (by decide)) ht) (by decide)) hlk) (by decide)

theorem collectAux_mem_shape (cfg : Config) :
    ∀ (ls : List Line) cur cnt (e : Header), e ∈ collectAux cfg cur cnt ls →
      (e.1 = 0 ∨ e.1 = 1) ∧ e.2.2.2 = convertToLink e.2.2.1
        ∧ ∃ l ∈ ls, ∃ lvl, headerMatch l = some (lvl, e.2.2.1) := by
  intro ls
  induction ls with
  | nil => intro cur cnt e he; simp [collectAux] at he
  | cons line rest ih =>
    intro cur cnt e he
    have lift : ∀ cur2 cnt2, e ∈ collectAux cfg cur2 cnt2 rest →
        (e.1 = 0 ∨ e.1 = 1) ∧ e.2.2.2 = convertToLink e.2.2.1
          ∧ ∃ l ∈ line :: rest, ∃ lvl, headerMatch l = some (lvl, e.2.2.1) := by
      intro cur2 cnt2 hmem
      obtain ⟨h1, h2, l, hl, lvl, hml⟩ := ih cur2 cnt2 e hmem
      exact ⟨h1, h2, l, List.mem_cons_of_mem line hl, lvl, hml⟩
    cases hm : headerMatch line with
    | none =>
      simp only [collectAux, hm] at he
      exact lift _ _ he
    | some p =>
      obtain ⟨lvl, text⟩ := p
      simp only [collectAux, hm] at he
      split at he
      · split at he
        · rcases List.mem_cons.mp he with h | h
          · subst h
            exact ⟨Or.inl rfl, rfl, line, by simp, lvl, hm⟩
          · exact lift _ _ h
        · split at he
          · rcases List.mem_cons.mp he with h | h
            · subst h
              exact ⟨Or.inr rfl, rfl, line, by simp, lvl, hm⟩
            · exact lift _ _ h
          · exact lift _ _ he
      · exact lift _ _ he

theorem nestedFold_mem :
    ∀ (hs : List Header) (cs : List Nat) (acc out : List Line),
      nestedFold hs cs acc = some out →
      ∀ l ∈ out, l ∈ acc ∨ ∃ cs2 ind t lk, l = nestedEntry cs2 ind t lk
        ∧ ∃ n, (ind, n, t, lk) ∈ hs := by
  intro hs
  induction hs with
  | nil =>
    intro cs acc out h l hl
    rw [show nestedFold [] cs acc = some acc from rfl, Option.some_inj] at h
    rw [← h] at hl
    exact Or.inl hl
  | cons hd rest ih =>
    obtain ⟨ind, n, t, lk⟩ := hd
    intro cs acc out h l hl
    simp only [nestedFold] at h
    cases hstep : nestedStep cs ind with
    | none => rw [hstep] at h; simp at h
    | some cs1 =>
      rw [hstep] at h
      rcases ih cs1 _ out h l hl with hmem | ⟨cs2, ind2, t2, lk2, heq, n2, hmem⟩
      · rcases List.mem_append.mp hmem with h1 | h1
        · exact Or.inl h1
        · refine Or.inr ⟨cs1, ind, t, lk, by simpa using h1, n, by simp⟩
      · exact Or.inr ⟨cs2, ind2, t2, lk2, heq, n2, List.mem_cons_of_mem _ hmem⟩

theorem collapseAux_sublist : ∀ (res : List Line) (i : Nat),
    (collapseAux res i).Sublist res := by
  intro res i
  induction res, i using collapseAux.induct with
  | case1 res i hlen hbl ih =>
    rw [collapseAux, if_pos hlen, if_pos hbl]
    exact ih.trans (List.eraseIdx_sublist res i)
  | case2 res i hlen hbl ih =>
    rw [collapseAux, if_pos hlen, if_neg hbl]
    exact ih
  | case3 res i hlen =>
    rw [collapseAux, if_neg hlen]

theorem tocJoin_good (cfg : Config) (hs : List Header)
    (hgood : ∀ e ∈ hs, '\n' ∉ e.2.2.1 ∧ '\n' ∉ e.2.2.2) (tocStr : Line)
    (h : tocJoin cfg hs = some tocStr) :
    ∃ entries, tocStr = joinNl (cfg.tocTitle :: entries)
      ∧ ∀ l ∈ entries, isTocTitleLine l = false ∧ '\n' ∉ l := by
  unfold tocJoin at h
  by_cases hst : (cfg.indentStyle == "github".toList) = true
  · rw [if_pos hst, Option.some_inj] at h
    refine ⟨hs.map githubEntry, h.symm, ?_⟩
    intro l hl
    obtain ⟨e, he, hle⟩ := List.mem_map.mp hl
    obtain ⟨ind, num, t, lk⟩ := e
    obtain ⟨ht, hlk⟩ := hgood _ he
    rw [← hle]
    exact githubEntry_good ind num t lk ht hlk
  · rw [if_neg hst] at h
    split at h
    · exact absurd h (by simp)
    · rename_i ls hfold
      rw [Option.some_inj] at h
      refine ⟨ls, h.symm, ?_⟩
      intro l hl
      rcases nestedFold_mem hs _ [] ls hfold l hl with hmem | ⟨cs2, ind, t, lk, hle, n, hmem⟩
      · simp at hmem
      · obtain ⟨ht, hlk⟩ := hgood _ hmem
        rw [hle]
        exact nestedEntry_good cs2 ind t lk ht hlk

/-- Claim C6, amended: for every document and every configuration whose
`toc_title` is a single line (contains no newline), a successful run of
`generate_toc` outputs at most one line whose trimmed text equals a reserved
TOC-title literal, regardless of how many such lines the input contained. -/
theorem c6_at_most_one_toc_title_amended :
    ∀ (cfg : Config) (doc : Line) (out : List Line),
      '\n' ∉ cfg.tocTitle →
      generateTocLines cfg (splitNl doc) = some out →
      List.countP isTocTitleLine out ≤ 1 := by
  intro cfg doc out htitle h
  unfold generateTocLines at h
  dsimp only at h
  split at h
  · exact absurd h (by simp)
  · rename_i de htrim
    split at h
    · exact absurd h (by simp)
    · rename_i tocStr htoc
      rw [Option.some_inj] at h
      subst h
      unfold collapseBlanks
      refine le_trans (List.Sublist.countP_le _ (collapseAux_sublist _ 0)) ?_
      simp only [List.countP_append]
      have hARzero : List.countP isTocTitleLine (removeTocs (splitNl doc)) = 0 :=
        List.countP_eq_zero.mpr
          (fun l hl => by simp [removeTocs_no_title (splitNl doc) l hl])
      have htake : List.countP isTocTitleLine ((removeTocs (splitNl doc)).take de) = 0 :=
        Nat.le_zero.mp (hARzero ▸ List.Sublist.countP_le _ (List.take_sublist de _))
      have hdrop : ∀ m, List.countP isTocTitleLine ((removeTocs (splitNl doc)).drop m) = 0 :=
        fun m => Nat.le_zero.mp (hARzero ▸ List.Sublist.countP_le _ (List.drop_sublist m _))
      have hheaders : ∀ e ∈ collectHeaders cfg ((removeTocs (splitNl doc)).drop de),
          '\n' ∉ e.2.2.1 ∧ '\n' ∉ e.2.2.2 := by
        intro e he
        obtain ⟨_, hlab, l, hl, lvl, hml⟩ := collectAux_mem_shape cfg _ none 1 e he
        have hlAR : l ∈ removeTocs (splitNl doc) := (List.drop_sublist de _).mem hl
        have hlsplit : l ∈ splitNl doc := (removeTocsAux_sublist (splitNl doc) 0).mem hlAR
        have hlnl : '\n' ∉ l := splitNl_noNl doc l hlsplit
        have htext : '\n' ∉ e.2.2.1 :=
          fun hm => hlnl (headerMatch_text_mem l lvl _ hml '\n' hm)
        exact ⟨htext, hlab ▸ convertToLink_noNl _⟩
      obtain ⟨entries, htb, hent⟩ := tocJoin_good cfg _ hheaders tocStr htoc
      have hsplit : splitNl tocStr = cfg.tocTitle :: entries := by
        rw [htb]
        refine splitNl_joinNl _ (by simp) ?_
        intro l hl
        rcases List.mem_cons.mp hl with hcase | hcase
        · rw [hcase]; exact htitle
        · exact (hent l hcase).2
      have hentries : List.countP isTocTitleLine entries = 0 :=
        List.countP_eq_zero.mpr (fun l hl => by simp [(hent l hl).1])
      rw [hsplit, htake, hdrop]
      simp only [List.countP_cons, List.countP_nil, hentries,
        show isTocTitleLine ([] : Line) = false from rfl, Bool.false_eq_true, if_false]
      split <;> omega

unseal removeTocsAux findTocEnd collapseAux hyphenate in
/-- Witness for the amended C6: a document containing two stale TOC blocks
still yields at most one TOC-title line. -/
theorem c6_at_most_one_toc_title_amended_witness :
    '\n' ∉ defaultConfig.tocTitle
    ∧ generateTocLines defaultConfig
        (splitNl "# T\n\nx\n\n## Table of Contents\n1. [old](#old)\n\n## Contents\n2. [older](#older)\n\n## A\nbody".toList)
      = some ["# T".toList, [], "x".toList, [], "## Table of Contents".toList,
          "1. [A](#a)".toList, [], "## A".toList, "body".toList]
    ∧ List.countP isTocTitleLine ["# T".toList, [], "x".toList, [],
        "## Table of Contents".toList, "1. [A](#a)".toList, [], "## A".toList,
        "body".toList] ≤ 1 :=
  ⟨by decide, by decide,
    c6_at_most_one_toc_title_amended defaultConfig
      "# T\n\nx\n\n## Table of Contents\n1. [old](#old)\n\n## Contents\n2. [older](#older)\n\n## A\nbody".toList
      ["# T".toList, [], "x".toList, [], "## Table of Contents".toList,
        "1. [A](#a)".toList, [], "## A".toList, "body".toList]
      (by decide) (by decide)⟩

end MarkdownTOC
